import Mathlib

/-
Verification of the linkdrop contract (src/contract/src/lib.rs).

The contract state is the persistent map from public keys to pending balances
(field accounts of struct LinkDrop).  Each entry point of the source is
translated into a pure Lean function from an execution environment and a
registry to an Except value: a panic in the source (assert / expect /
arithmetic overflow) becomes an error, and the host guarantees call-level
atomicity on panic, so an error result leaves the registry untouched.
Promises built by the source are reified as lists of PromiseSpec values that
record the receiver, the batched actions in order, and the registered
completion callback.
-/

set_option maxHeartbeats 1000000

namespace LinkDrop

/-- Bytes of a public verification key, the registry key (PublicKey = Vec of u8 in the source). -/
abbrev PublicKey := List Nat

abbrev AccountId := String

/-- The number of values of the u128 type. -/
def U128_MOD : Nat := 2 ^ 128

/-- Access key allowance for linkdrop contract, constant ACCESS_KEY_ALLOWANCE of lib.rs. -/
def ACCESS_KEY_ALLOWANCE : Nat := 1000000000000000000000

/-- Constant MAX_ALLOWANCE of lib.rs, u128 maximum. -/
def MAX_ALLOWANCE : Nat := U128_MOD - 1

/-- Gas attached to the callback from account creation, constant of lib.rs. -/
def ON_CREATE_ACCOUNT_CALLBACK_GAS : Nat := 40000000000000

/-- Constant NO_DEPOSIT of lib.rs. -/
def NO_DEPOSIT : Nat := 0

/-- The accounts map of the contract: association list from key bytes to pending balance,
mirroring near_sdk collections Map of PublicKey to Nat. -/
abbrev Registry := List (PublicKey × Nat)

/-- Lookup in the accounts map (Map.get of the source). -/
def rget : Registry → PublicKey → Option Nat
  | [], _ => none
  | e :: rest, pk => if e.1 = pk then some e.2 else rget rest pk

/-- Removal from the accounts map (Map.remove of the source); removes every entry
with the given key, which on nodup-keyed registries is the single entry. -/
def rremove : Registry → PublicKey → Registry
  | [], _ => []
  | e :: rest, pk => if e.1 = pk then rremove rest pk else e :: rremove rest pk

/-- Insertion into the accounts map (Map.insert of the source): overwrites any
existing entry for the key. -/
def rinsert (m : Registry) (pk : PublicKey) (v : Nat) : Registry :=
  (pk, v) :: rremove m pk

/-- Sum of all pending balances stored in the registry. -/
def registrySum (m : Registry) : Nat := (m.map Prod.snd).sum

/-- The keys of the registry are pairwise distinct. -/
def keysNodup (m : Registry) : Prop := (m.map Prod.fst).Nodup

/-- One action of a promise batch, as built by the source via the Promise builder API. -/
inductive Action where
  | createAccount : Action
  | transfer : Nat → Action
  | deployContract : List Nat → Action
  | functionCall : String → Nat → Nat → Nat → Action
  | addAccessKey : PublicKey → Nat → AccountId → String → Action
  | addFullAccessKey : PublicKey → Action
  | deleteKey : PublicKey → Action
deriving DecidableEq

/-- A completion callback registered with .then in the source; carries the
amount captured in the call closure. -/
inductive Callback where
  | onAccountCreatedAndClaimed : Nat → Callback
  | onAccountCreated : AccountId → Nat → Callback
deriving DecidableEq

/-- The amount captured by a callback closure. -/
def Callback.amount : Callback → Nat
  | .onAccountCreatedAndClaimed a => a
  | .onAccountCreated _ a => a

/-- One promise built by the source: receiver account, batched actions in
order, and the completion callback registered on the chain, if any. -/
structure PromiseSpec where
  target : AccountId
  actions : List Action
  callback : Option Callback
deriving DecidableEq

/-- The panics of the source, named after the error taxonomy of the spec. -/
inductive ContractError where
  | authorizationError
  | invalidAccountId
  | missingCredential
  | insufficientDeposit
  | arithmeticOverflow
  | resultCountViolation
deriving DecidableEq

/-- Result of a dispatched promise as seen by a callback (enum PromiseResult of near_sdk). -/
inductive PromiseResult where
  | successful : List Nat → PromiseResult
  | failed : PromiseResult
  | notReady : PromiseResult
deriving DecidableEq

/-- Whether a promise result is PromiseResult::Successful. -/
def isSuccessfulResult : PromiseResult → Bool
  | .successful _ => true
  | _ => false

/-- The host environment of one call: the env::* values the source reads.
The account-name validator env::is_valid_account_id is an external collaborator
and is carried as a boolean function. -/
structure Env where
  currentAccountId : AccountId
  predecessorAccountId : AccountId
  signerAccountPk : PublicKey
  attachedDeposit : Nat
  isValidAccountId : AccountId → Bool
  promiseResults : List PromiseResult

/-- The fixed method list granted by send (byte string of lib.rs line 77). -/
def sendMethodNames : String := "claim,create_account_and_claim,create_contract_and_claim"

/-- The fixed method list granted on the multisig access key (lib.rs line 174). -/
def multisigMethodNames : String :=
  "new,add_request,delete_request,execute_request,confirm,get_request,list_request_ids,get_confirmations"

/-- Modelled from the spec: the fixed bundled payload res/multisig.wasm is not
under src, only the interface used to initialize it is in scope; its byte
content plays no role in any property proved here, so it is a fixed
unspecified byte list. -/
def multisigWasm : List Nat := [0]

/-- Function is_promise_success of lib.rs: asserts exactly one promise result
was delivered (none means the assert fires), and reports whether it succeeded. -/
def is_promise_success (results : List PromiseResult) : Option Bool :=
  match results with
  | [PromiseResult.successful _] => some true
  | [_] => some false
  | _ => none

/-- Method send of lib.rs: requires the attached deposit to exceed
ACCESS_KEY_ALLOWANCE, accumulates the net deposit under the key (u128
addition, overflow is fatal), and grants an access key on the contract
scoped to the fixed method list. -/
def send (env : Env) (accounts : Registry) (public_key : PublicKey) :
    Except ContractError (Registry × List PromiseSpec) :=
  if env.attachedDeposit ≤ ACCESS_KEY_ALLOWANCE then
    .error .insufficientDeposit
  else
    let value := (rget accounts public_key).getD 0
    if U128_MOD ≤ value + env.attachedDeposit then
      .error .arithmeticOverflow
    else
      .ok (rinsert accounts public_key (value + env.attachedDeposit - ACCESS_KEY_ALLOWANCE),
        [⟨env.currentAccountId,
          [Action.addAccessKey public_key ACCESS_KEY_ALLOWANCE env.currentAccountId sendMethodNames],
          none⟩])

/-- Method send_limited of lib.rs: identical to send except that the granted
access key is scoped to the caller-supplied method name list. -/
def send_limited (env : Env) (accounts : Registry) (public_key : PublicKey)
    (method_names : String) :
    Except ContractError (Registry × List PromiseSpec) :=
  if env.attachedDeposit ≤ ACCESS_KEY_ALLOWANCE then
    .error .insufficientDeposit
  else
    let value := (rget accounts public_key).getD 0
    if U128_MOD ≤ value + env.attachedDeposit then
      .error .arithmeticOverflow
    else
      .ok (rinsert accounts public_key (value + env.attachedDeposit - ACCESS_KEY_ALLOWANCE),
        [⟨env.currentAccountId,
          [Action.addAccessKey public_key ACCESS_KEY_ALLOWANCE env.currentAccountId method_names],
          none⟩])

/-- Method claim of lib.rs: self-call only, validates the target account name,
removes the pending deposit of the signer key (panics when absent), deletes
the access key and transfers the amount. -/
def claim (env : Env) (accounts : Registry) (account_id : AccountId) :
    Except ContractError (Registry × List PromiseSpec) :=
  if env.predecessorAccountId = env.currentAccountId then
    if env.isValidAccountId account_id then
      match rget accounts env.signerAccountPk with
      | none => .error .missingCredential
      | some amount =>
          .ok (rremove accounts env.signerAccountPk,
            [⟨env.currentAccountId, [Action.deleteKey env.signerAccountPk], none⟩,
             ⟨account_id, [Action.transfer amount], none⟩])
    else .error .invalidAccountId
  else .error .authorizationError

/-- Method create_account_and_claim of lib.rs: self-call only, validates the
name, removes the pending deposit of the signer key, and dispatches the
pipeline create_account, add_full_access_key, transfer, with the completion
callback on_account_created_and_claimed carrying the amount. -/
def create_account_and_claim (env : Env) (accounts : Registry)
    (new_account_id : AccountId) (new_public_key : PublicKey) :
    Except ContractError (Registry × List PromiseSpec) :=
  if env.predecessorAccountId = env.currentAccountId then
    if env.isValidAccountId new_account_id then
      match rget accounts env.signerAccountPk with
      | none => .error .missingCredential
      | some amount =>
          .ok (rremove accounts env.signerAccountPk,
            [⟨new_account_id,
              [Action.createAccount, Action.addFullAccessKey new_public_key,
               Action.transfer amount],
              some (Callback.onAccountCreatedAndClaimed amount)⟩])
    else .error .invalidAccountId
  else .error .authorizationError

/-- Method create_multisig_and_claim of lib.rs: self-call only, validates the
name, removes the pending deposit, and dispatches create_account, transfer,
deploy_contract of the bundled multisig payload, function_call of new with
the confirmation count, add_access_key scoped to MAX_ALLOWANCE and the fixed
multisig method list, with the completion callback carrying the amount. -/
def create_multisig_and_claim (env : Env) (accounts : Registry)
    (new_account_id : AccountId) (new_public_key : PublicKey)
    (num_confirmations : Nat) :
    Except ContractError (Registry × List PromiseSpec) :=
  if env.predecessorAccountId = env.currentAccountId then
    if env.isValidAccountId new_account_id then
      match rget accounts env.signerAccountPk with
      | none => .error .missingCredential
      | some amount =>
          .ok (rremove accounts env.signerAccountPk,
            [⟨new_account_id,
              [Action.createAccount, Action.transfer amount,
               Action.deployContract multisigWasm,
               Action.functionCall "new" num_confirmations NO_DEPOSIT
                 ON_CREATE_ACCOUNT_CALLBACK_GAS,
               Action.addAccessKey new_public_key MAX_ALLOWANCE new_account_id
                 multisigMethodNames],
              some (Callback.onAccountCreatedAndClaimed amount)⟩])
    else .error .invalidAccountId
  else .error .authorizationError

/-- Method create_contract_and_claim of lib.rs: self-call only, validates the
name, removes the pending deposit, and dispatches create_account, transfer,
deploy_contract of the caller-supplied bytes, add_access_key scoped to the
caller-supplied allowance and method list, with the completion callback
carrying the amount. -/
def create_contract_and_claim (env : Env) (accounts : Registry)
    (new_account_id : AccountId) (new_public_key : PublicKey)
    (allowance : Nat) (contract_bytes : List Nat) (method_names : String) :
    Except ContractError (Registry × List PromiseSpec) :=
  if env.predecessorAccountId = env.currentAccountId then
    if env.isValidAccountId new_account_id then
      match rget accounts env.signerAccountPk with
      | none => .error .missingCredential
      | some amount =>
          .ok (rremove accounts env.signerAccountPk,
            [⟨new_account_id,
              [Action.createAccount, Action.transfer amount,
               Action.deployContract contract_bytes,
               Action.addAccessKey new_public_key allowance new_account_id
                 method_names],
              some (Callback.onAccountCreatedAndClaimed amount)⟩])
    else .error .invalidAccountId
  else .error .authorizationError

/-- Callback on_account_created of lib.rs: self-call only, asserts exactly one
promise result, and on failure refunds the attached amount to the original
caller. -/
def on_account_created (env : Env) (predecessor_account_id : AccountId)
    (amount : Nat) :
    Except ContractError (Bool × List PromiseSpec) :=
  if env.predecessorAccountId = env.currentAccountId then
    match is_promise_success env.promiseResults with
    | none => .error .resultCountViolation
    | some true => .ok (true, [])
    | some false =>
        .ok (false, [⟨predecessor_account_id, [Action.transfer amount], none⟩])
  else .error .authorizationError

/-- Callback on_account_created_and_claimed of lib.rs: self-call only, asserts
exactly one promise result; on success it deletes the one-time key, on
failure it re-inserts the dispatched amount under the signer key. -/
def on_account_created_and_claimed (env : Env) (accounts : Registry)
    (amount : Nat) :
    Except ContractError (Registry × Bool × List PromiseSpec) :=
  if env.predecessorAccountId = env.currentAccountId then
    match is_promise_success env.promiseResults with
    | none => .error .resultCountViolation
    | some true =>
        .ok (accounts, true, [⟨env.currentAccountId, [Action.deleteKey env.signerAccountPk], none⟩])
    | some false =>
        .ok (rinsert accounts env.signerAccountPk amount, false, [])
  else .error .authorizationError

instance {ε α : Type} [DecidableEq ε] [DecidableEq α] : DecidableEq (Except ε α) := fun a b => by
  cases a <;> cases b
  case error.error e f => exact decidable_of_iff (e = f) (by simp)
  case ok.ok x y => exact decidable_of_iff (x = y) (by simp)
  all_goals exact isFalse (by simp)

/-- Environment of a self-originated call with the given signer key, attached
deposit and delivered promise results, with a validator accepting every name. -/
def selfEnv (pk : PublicKey) (deposit : Nat) (results : List PromiseResult) : Env :=
  ⟨"linkdrop", "linkdrop", pk, deposit, fun _ => true, results⟩

/-- The registry after a call, under the call-level atomicity of the host:
a panic aborts the whole call and leaves the registry as it was. -/
def regAfter (r : Except ContractError (Registry × List PromiseSpec))
    (before : Registry) : Registry :=
  match r with
  | .ok (m, _) => m
  | .error _ => before

/-- The registry component of a call result. -/
def regResult (r : Except ContractError (Registry × List PromiseSpec)) :
    Except ContractError Registry :=
  r.map Prod.fst

/-- The value of a transfer action, zero for every other action. -/
def actionTransfer : Action → Nat
  | .transfer a => a
  | _ => 0

/-- Total amount transferred out by a batch of promises. -/
def transferTotal (ps : List PromiseSpec) : Nat :=
  (ps.map (fun p => (p.actions.map actionTransfer).sum)).sum

/-- The in-flight entries created by a dispatch: one record per registered
completion callback, keyed by the signer credential and carrying the amount
captured in the callback closure. -/
def dispatchedEntries (pk : PublicKey) (ps : List PromiseSpec) : Registry :=
  ps.filterMap (fun p => p.callback.map (fun c => (pk, c.amount)))

/-- Whole-system state of a trace: the persistent registry, the pipelines
dispatched but not yet resolved, and ghost accounting of everything received,
retained as fees, and disbursed (transferred out or finalized). -/
structure Sys where
  accounts : Registry
  inflight : Registry
  received : Nat
  fees : Nat
  disbursed : Nat
deriving DecidableEq

/-- One step of a register / consume / restore trace: the entry points of the
contract reachable in the claim life cycle, plus delivery of a completion
signal for an in-flight pipeline. -/
inductive TraceOp where
  | opSend : PublicKey → Nat → TraceOp
  | opSendLimited : PublicKey → Nat → String → TraceOp
  | opClaim : PublicKey → AccountId → TraceOp
  | opCreateAndClaim : PublicKey → AccountId → PublicKey → TraceOp
  | opCreateContract : PublicKey → AccountId → PublicKey → Nat → List Nat → String → TraceOp
  | opCreateMultisig : PublicKey → AccountId → PublicKey → Nat → TraceOp
  | opCallback : PublicKey → Bool → TraceOp
deriving DecidableEq

/-- Execute one trace step.  Redemption calls run as self-calls signed with the
credential, as the access key granted by send forces in production; a panic
leaves the state unchanged (call-level atomicity of the host).  A callback
step resolves the in-flight pipeline of the given credential, if any, with the
given outcome. -/
def stepOp (s : Sys) (op : TraceOp) : Sys :=
  match op with
  | .opSend pk d =>
      match send (selfEnv pk d []) s.accounts pk with
      | .error _ => s
      | .ok (m1, _) =>
          { s with
              accounts := m1
              received := s.received + d
              fees := s.fees + ACCESS_KEY_ALLOWANCE }
  | .opSendLimited pk d names =>
      match send_limited (selfEnv pk d []) s.accounts pk names with
      | .error _ => s
      | .ok (m1, _) =>
          { s with
              accounts := m1
              received := s.received + d
              fees := s.fees + ACCESS_KEY_ALLOWANCE }
  | .opClaim pk target =>
      match claim (selfEnv pk 0 []) s.accounts target with
      | .error _ => s
      | .ok (m1, ps) =>
          { s with accounts := m1, disbursed := s.disbursed + transferTotal ps }
  | .opCreateAndClaim pk target npk =>
      match create_account_and_claim (selfEnv pk 0 []) s.accounts target npk with
      | .error _ => s
      | .ok (m1, ps) =>
          { s with
              accounts := m1
              inflight := s.inflight ++ dispatchedEntries pk ps }
  | .opCreateContract pk target npk allowance code names =>
      match create_contract_and_claim (selfEnv pk 0 []) s.accounts target npk
          allowance code names with
      | .error _ => s
      | .ok (m1, ps) =>
          { s with
              accounts := m1
              inflight := s.inflight ++ dispatchedEntries pk ps }
  | .opCreateMultisig pk target npk n =>
      match create_multisig_and_claim (selfEnv pk 0 []) s.accounts target npk n with
      | .error _ => s
      | .ok (m1, ps) =>
          { s with
              accounts := m1
              inflight := s.inflight ++ dispatchedEntries pk ps }
  | .opCallback pk success =>
      match rget s.inflight pk with
      | none => s
      | some a =>
          match on_account_created_and_claimed
              (selfEnv pk 0
                [if success then PromiseResult.successful [] else PromiseResult.failed])
              s.accounts a with
          | .error _ => s
          | .ok (m1, ok1, _) =>
              { s with
                  accounts := m1
                  inflight := rremove s.inflight pk
                  disbursed := if ok1 then s.disbursed + a else s.disbursed }

/-- Run a trace. -/
def applyOps (s : Sys) (ops : List TraceOp) : Sys :=
  ops.foldl stepOp s

/-- The system before any call. -/
def initSys : Sys := ⟨[], [], 0, 0, 0⟩

/-- A step is well-interleaved when it does not register a new deposit for a
credential whose pipeline is still in flight. -/
def okOp (s : Sys) (op : TraceOp) : Bool :=
  match op with
  | .opSend pk _ => (rget s.inflight pk).isNone
  | .opSendLimited pk _ _ => (rget s.inflight pk).isNone
  | _ => true

/-- A trace is well-interleaved when every step is. -/
def goodTrace : Sys → List TraceOp → Bool
  | _, [] => true
  | s, op :: ops => okOp s op && goodTrace (stepOp s op) ops

/-- The conservation equation of the spec, in additive form: registry total
plus dispatched in-flight funds plus disbursed funds plus retained fees equals
total funds received. -/
abbrev conserved (s : Sys) : Prop :=
  registrySum s.accounts + registrySum s.inflight + s.disbursed + s.fees = s.received

/-- Inductive invariant of the trace machine. -/
structure Inv (s : Sys) : Prop where
  conservation : conserved s
  accNodup : keysNodup s.accounts
  infNodup : keysNodup s.inflight
  infAbsent : ∀ e ∈ s.inflight, rget s.accounts e.1 = none

/-- Trace refuting unrestricted conservation: a second send for the same
credential lands while its pipeline is in flight, and the failure restoration
then overwrites the pending deposit recorded by that send. -/
def cexTrace : List TraceOp :=
  [TraceOp.opSend [0] (2 * ACCESS_KEY_ALLOWANCE),
   TraceOp.opCreateAndClaim [0] "bob" [1],
   TraceOp.opSend [0] (3 * ACCESS_KEY_ALLOWANCE),
   TraceOp.opCallback [0] false]

/-- A trace operation that cannot re-create a registry entry for the given
credential: it is neither a send for that credential nor a failure callback
(restore) for it. -/
def noInsertFor (pk : PublicKey) : TraceOp → Prop
  | .opSend q _ => q ≠ pk
  | .opSendLimited q _ _ => q ≠ pk
  | .opCallback q success => q ≠ pk ∨ success = true
  | _ => True

instance noInsertForDecidable (pk : PublicKey) (op : TraceOp) :
    Decidable (noInsertFor pk op) :=
  match op with
  | .opSend q _ => inferInstanceAs (Decidable (q ≠ pk))
  | .opSendLimited q _ _ => inferInstanceAs (Decidable (q ≠ pk))
  | .opClaim _ _ => inferInstanceAs (Decidable True)
  | .opCreateAndClaim _ _ _ => inferInstanceAs (Decidable True)
  | .opCreateContract _ _ _ _ _ _ => inferInstanceAs (Decidable True)
  | .opCreateMultisig _ _ _ _ => inferInstanceAs (Decidable True)
  | .opCallback q success => inferInstanceAs (Decidable (q ≠ pk ∨ success = true))

/-- The kind of a promise action, used to state pipeline ordering. -/
inductive ActionKind where
  | createK
  | transferK
  | deployK
  | callK
  | accessK
  | fullAccessK
  | deleteK
deriving DecidableEq

/-- Kind of one action. -/
def actionKind : Action → ActionKind
  | .createAccount => .createK
  | .transfer _ => .transferK
  | .deployContract _ => .deployK
  | .functionCall _ _ _ _ => .callK
  | .addAccessKey _ _ _ _ => .accessK
  | .addFullAccessKey _ => .fullAccessK
  | .deleteKey _ => .deleteK

/-- The ordered action kinds of a single-pipeline call result. -/
def pipelineKinds (r : Except ContractError (Registry × List PromiseSpec)) :
    Option (List ActionKind) :=
  match r with
  | .ok (_, [p]) => some (p.actions.map actionKind)
  | _ => none

theorem rget_rremove_self (m : Registry) (pk : PublicKey) : rget (rremove m pk) pk = none := by
  induction m with
  | nil => rfl
  | cons e rest ih =>
      by_cases h : e.1 = pk
      · simp [rremove, h, ih]
      · simp [rremove, rget, h, ih]

theorem rget_rremove_ne (m : Registry) (pk q : PublicKey) (h : q ≠ pk) :
    rget (rremove m pk) q = rget m q := by
  have hqp : ¬ pk = q := fun hc => h hc.symm
  induction m with
  | nil => rfl
  | cons e rest ih =>
      by_cases he : e.1 = pk
      · simp [rremove, rget, he, hqp, ih]
      · by_cases hq : e.1 = q
        · simp [rremove, rget, he, hq, h]
        · simp [rremove, rget, he, hq, h, ih]

theorem rget_rinsert_self (m : Registry) (pk : PublicKey) (v : Nat) :
    rget (rinsert m pk v) pk = some v := by
  simp [rinsert, rget]

theorem rget_rinsert_ne (m : Registry) (pk q : PublicKey) (v : Nat) (h : q ≠ pk) :
    rget (rinsert m pk v) q = rget m q := by
  have : ¬ pk = q := fun hc => h hc.symm
  simp [rinsert, rget, this, rget_rremove_ne m pk q h]

theorem rget_cons_self (rest : Registry) (pk : PublicKey) (v : Nat) :
    rget ((pk, v) :: rest) pk = some v := by
  simp [rget]

theorem rremove_cons_self (rest : Registry) (pk : PublicKey) (v : Nat) :
    rremove ((pk, v) :: rest) pk = rremove rest pk := by
  simp [rremove]

theorem rremove_nil (pk : PublicKey) : rremove ([] : Registry) pk = [] := rfl

theorem rget_eq_none_iff (m : Registry) (pk : PublicKey) :
    rget m pk = none ↔ pk ∉ m.map Prod.fst := by
  induction m with
  | nil => simp [rget]
  | cons e rest ih =>
      rw [List.map_cons, List.mem_cons]
      by_cases he : e.1 = pk
      · simp only [rget, if_pos he]
        constructor
        · intro hc; simp at hc
        · intro hc; exact absurd (Or.inl he.symm) hc
      · simp only [rget, if_neg he]
        rw [ih]
        constructor
        · intro hn hc
          rcases hc with hc | hc
          · exact he hc.symm
          · exact hn hc
        · intro hn hc
          exact hn (Or.inr hc)

theorem rremove_eq_self (m : Registry) (pk : PublicKey) (h : rget m pk = none) :
    rremove m pk = m := by
  induction m with
  | nil => rfl
  | cons e rest ih =>
      by_cases he : e.1 = pk
      · simp [rget, he] at h
      · simp [rget, he] at h
        simp [rremove, he, ih h]

theorem mem_rremove (m : Registry) (pk : PublicKey) (e : PublicKey × Nat)
    (h : e ∈ rremove m pk) : e ∈ m ∧ e.1 ≠ pk := by
  induction m with
  | nil => cases h
  | cons f rest ih =>
      by_cases hf : f.1 = pk
      · simp only [rremove, if_pos hf] at h
        exact ⟨List.mem_cons_of_mem f (ih h).1, (ih h).2⟩
      · simp only [rremove, if_neg hf] at h
        rcases List.mem_cons.mp h with h | h
        · exact ⟨by rw [h]; exact List.mem_cons_self _ _, by rw [h]; exact hf⟩
        · exact ⟨List.mem_cons_of_mem f (ih h).1, (ih h).2⟩

theorem rget_mem (m : Registry) (pk : PublicKey) (a : Nat)
    (h : rget m pk = some a) : (pk, a) ∈ m := by
  induction m with
  | nil => cases h
  | cons e rest ih =>
      by_cases he : e.1 = pk
      · simp only [rget, if_pos he] at h
        have : e = (pk, a) := by
          cases e
          simp only at he
          simp only [Option.some.injEq] at h
          simp [he, h]
        rw [← this]
        exact List.mem_cons_self e rest
      · simp only [rget, if_neg he] at h
        exact List.mem_cons_of_mem e (ih h)

theorem keysNodup_rremove (m : Registry) (pk : PublicKey) (h : keysNodup m) :
    keysNodup (rremove m pk) := by
  induction m with
  | nil => exact h
  | cons e rest ih =>
      rw [keysNodup, List.map_cons, List.nodup_cons] at h
      by_cases he : e.1 = pk
      · simp only [rremove, if_pos he]
        exact ih h.2
      · simp only [rremove, if_neg he]
        rw [keysNodup, List.map_cons, List.nodup_cons]
        refine ⟨fun hc => ?_, ih h.2⟩
        rcases List.mem_map.mp hc with ⟨f, hf, hfe⟩
        exact h.1 (List.mem_map.mpr ⟨f, (mem_rremove rest pk f hf).1, hfe⟩)

theorem keysNodup_rinsert (m : Registry) (pk : PublicKey) (v : Nat)
    (h : keysNodup m) : keysNodup (rinsert m pk v) := by
  rw [rinsert, keysNodup, List.map_cons, List.nodup_cons]
  refine ⟨fun hc => ?_, keysNodup_rremove m pk h⟩
  have := (rget_eq_none_iff (rremove m pk) pk).mp (rget_rremove_self m pk)
  exact this hc

theorem registrySum_rremove (m : Registry) (pk : PublicKey) (h : keysNodup m) :
    registrySum (rremove m pk) + (rget m pk).getD 0 = registrySum m := by
  induction m with
  | nil => rfl
  | cons e rest ih =>
      rw [keysNodup, List.map_cons, List.nodup_cons] at h
      by_cases he : e.1 = pk
      · have hr : rget rest pk = none := by
          rw [rget_eq_none_iff]
          rw [he] at h
          exact h.1
        have h2 : rremove (e :: rest) pk = rest := by
          simp [rremove, he, rremove_eq_self rest pk hr]
        have h3 : rget (e :: rest) pk = some e.2 := by
          simp [rget, he]
        rw [h2, h3]
        simp only [registrySum, List.map_cons, List.sum_cons, Option.getD_some]
        omega
      · have hrest := ih h.2
        have h2 : rremove (e :: rest) pk = e :: rremove rest pk := by
          simp [rremove, he]
        have h3 : rget (e :: rest) pk = rget rest pk := by
          simp [rget, he]
        rw [h2, h3]
        simp only [registrySum, List.map_cons, List.sum_cons] at hrest ⊢
        omega

theorem registrySum_rinsert (m : Registry) (pk : PublicKey) (v : Nat)
    (h : keysNodup m) :
    registrySum (rinsert m pk v) + (rget m pk).getD 0 = registrySum m + v := by
  have := registrySum_rremove m pk h
  simp only [rinsert, registrySum, List.map_cons, List.sum_cons] at this ⊢
  omega

theorem rget_append_of_none (l r : Registry) (pk : PublicKey) (h : rget l pk = none) :
    rget (l ++ r) pk = rget r pk := by
  induction l with
  | nil => rfl
  | cons e rest ih =>
      by_cases he : e.1 = pk
      · simp [rget, he] at h
      · simp only [rget, if_neg he] at h
        simp only [List.cons_append, rget, if_neg he]
        exact ih h

theorem registrySum_append (l r : Registry) :
    registrySum (l ++ r) = registrySum l + registrySum r := by
  simp [registrySum]

theorem inv_initSys : Inv initSys :=
  ⟨rfl, List.nodup_nil, List.nodup_nil, fun e he => absurd he (List.not_mem_nil e)⟩

theorem send_ok_inv {env : Env} {m : Registry} {pk : PublicKey} {m1 : Registry}
    {ps : List PromiseSpec}
    (h : send env m pk = .ok (m1, ps)) :
    ACCESS_KEY_ALLOWANCE < env.attachedDeposit ∧
    (rget m pk).getD 0 + env.attachedDeposit < U128_MOD ∧
    m1 = rinsert m pk ((rget m pk).getD 0 + env.attachedDeposit - ACCESS_KEY_ALLOWANCE) := by
  by_cases h1 : env.attachedDeposit ≤ ACCESS_KEY_ALLOWANCE
  · simp [send, h1] at h
  · by_cases h2 : U128_MOD ≤ (rget m pk).getD 0 + env.attachedDeposit
    · simp [send, h1, h2] at h
    · simp only [send, if_neg h1, if_neg h2] at h
      injection h with h3
      simp only [Prod.mk.injEq] at h3
      exact ⟨by omega, by omega, h3.1.symm⟩

theorem send_limited_ok_inv {env : Env} {m : Registry} {pk : PublicKey}
    {names : String} {m1 : Registry} {ps : List PromiseSpec}
    (h : send_limited env m pk names = .ok (m1, ps)) :
    ACCESS_KEY_ALLOWANCE < env.attachedDeposit ∧
    (rget m pk).getD 0 + env.attachedDeposit < U128_MOD ∧
    m1 = rinsert m pk ((rget m pk).getD 0 + env.attachedDeposit - ACCESS_KEY_ALLOWANCE) := by
  by_cases h1 : env.attachedDeposit ≤ ACCESS_KEY_ALLOWANCE
  · simp [send_limited, h1] at h
  · by_cases h2 : U128_MOD ≤ (rget m pk).getD 0 + env.attachedDeposit
    · simp [send_limited, h1, h2] at h
    · simp only [send_limited, if_neg h1, if_neg h2] at h
      injection h with h3
      simp only [Prod.mk.injEq] at h3
      exact ⟨by omega, by omega, h3.1.symm⟩

theorem claim_ok_inv {env : Env} {m : Registry} {t : AccountId} {m1 : Registry}
    {ps : List PromiseSpec}
    (h : claim env m t = .ok (m1, ps)) :
    env.predecessorAccountId = env.currentAccountId ∧ env.isValidAccountId t = true ∧
    ∃ a, rget m env.signerAccountPk = some a ∧
      m1 = rremove m env.signerAccountPk ∧
      ps = [⟨env.currentAccountId, [Action.deleteKey env.signerAccountPk], none⟩,
            ⟨t, [Action.transfer a], none⟩] := by
  simp only [claim] at h
  split_ifs at h with h1 h2
  revert h
  split
  · intro h; simp at h
  · intro h
    simp only [Except.ok.injEq, Prod.mk.injEq] at h
    next a ha => exact ⟨h1, h2, a, ha, h.1.symm, h.2.symm⟩

theorem create_account_and_claim_ok_inv {env : Env} {m : Registry} {t : AccountId}
    {npk : PublicKey} {m1 : Registry} {ps : List PromiseSpec}
    (h : create_account_and_claim env m t npk = .ok (m1, ps)) :
    env.predecessorAccountId = env.currentAccountId ∧ env.isValidAccountId t = true ∧
    ∃ a, rget m env.signerAccountPk = some a ∧
      m1 = rremove m env.signerAccountPk ∧
      ps = [⟨t, [Action.createAccount, Action.addFullAccessKey npk, Action.transfer a],
            some (Callback.onAccountCreatedAndClaimed a)⟩] := by
  simp only [create_account_and_claim] at h
  split_ifs at h with h1 h2
  revert h
  split
  · intro h; simp at h
  · intro h
    simp only [Except.ok.injEq, Prod.mk.injEq] at h
    next a ha => exact ⟨h1, h2, a, ha, h.1.symm, h.2.symm⟩

theorem create_contract_and_claim_ok_inv {env : Env} {m : Registry} {t : AccountId}
    {npk : PublicKey} {al : Nat} {code : List Nat} {names : String}
    {m1 : Registry} {ps : List PromiseSpec}
    (h : create_contract_and_claim env m t npk al code names = .ok (m1, ps)) :
    env.predecessorAccountId = env.currentAccountId ∧ env.isValidAccountId t = true ∧
    ∃ a, rget m env.signerAccountPk = some a ∧
      m1 = rremove m env.signerAccountPk ∧
      ps = [⟨t, [Action.createAccount, Action.transfer a, Action.deployContract code,
            Action.addAccessKey npk al t names],
            some (Callback.onAccountCreatedAndClaimed a)⟩] := by
  simp only [create_contract_and_claim] at h
  split_ifs at h with h1 h2
  revert h
  split
  · intro h; simp at h
  · intro h
    simp only [Except.ok.injEq, Prod.mk.injEq] at h
    next a ha => exact ⟨h1, h2, a, ha, h.1.symm, h.2.symm⟩

theorem create_multisig_and_claim_ok_inv {env : Env} {m : Registry} {t : AccountId}
    {npk : PublicKey} {n : Nat} {m1 : Registry} {ps : List PromiseSpec}
    (h : create_multisig_and_claim env m t npk n = .ok (m1, ps)) :
    env.predecessorAccountId = env.currentAccountId ∧ env.isValidAccountId t = true ∧
    ∃ a, rget m env.signerAccountPk = some a ∧
      m1 = rremove m env.signerAccountPk ∧
      ps = [⟨t, [Action.createAccount, Action.transfer a, Action.deployContract multisigWasm,
            Action.functionCall "new" n NO_DEPOSIT ON_CREATE_ACCOUNT_CALLBACK_GAS,
            Action.addAccessKey npk MAX_ALLOWANCE t multisigMethodNames],
            some (Callback.onAccountCreatedAndClaimed a)⟩] := by
  simp only [create_multisig_and_claim] at h
  split_ifs at h with h1 h2
  revert h
  split
  · intro h; simp at h
  · intro h
    simp only [Except.ok.injEq, Prod.mk.injEq] at h
    next a ha => exact ⟨h1, h2, a, ha, h.1.symm, h.2.symm⟩

theorem cb_success_eval (m : Registry) (a : Nat) (pk : PublicKey) :
    on_account_created_and_claimed (selfEnv pk 0 [PromiseResult.successful []]) m a =
      .ok (m, true, [⟨"linkdrop", [Action.deleteKey pk], none⟩]) := by
  simp [on_account_created_and_claimed, selfEnv, is_promise_success]

theorem cb_failure_eval (m : Registry) (a : Nat) (pk : PublicKey) :
    on_account_created_and_claimed (selfEnv pk 0 [PromiseResult.failed]) m a =
      .ok (rinsert m pk a, false, []) := by
  simp [on_account_created_and_claimed, selfEnv, is_promise_success]

theorem inv_register (s : Sys) (pk : PublicKey) (d : Nat)
    (hd : ACCESS_KEY_ALLOWANCE < d)
    (hnotin : rget s.inflight pk = none) (hinv : Inv s) :
    Inv ⟨rinsert s.accounts pk ((rget s.accounts pk).getD 0 + d - ACCESS_KEY_ALLOWANCE),
      s.inflight, s.received + d, s.fees + ACCESS_KEY_ALLOWANCE, s.disbursed⟩ := by
  obtain ⟨hc, han, hin, hab⟩ := hinv
  have hsum := registrySum_rinsert s.accounts pk
    ((rget s.accounts pk).getD 0 + d - ACCESS_KEY_ALLOWANCE) han
  have hkeys := (rget_eq_none_iff s.inflight pk).mp hnotin
  refine ⟨?_, keysNodup_rinsert _ _ _ han, hin, ?_⟩
  · show registrySum (rinsert s.accounts pk
        ((rget s.accounts pk).getD 0 + d - ACCESS_KEY_ALLOWANCE)) +
      registrySum s.inflight + s.disbursed + (s.fees + ACCESS_KEY_ALLOWANCE) = s.received + d
    omega
  · intro e he
    have hne : e.1 ≠ pk := fun hc2 => hkeys (hc2 ▸ List.mem_map_of_mem Prod.fst he)
    show rget (rinsert s.accounts pk _) e.1 = none
    rw [rget_rinsert_ne _ _ _ _ hne]
    exact hab e he

theorem inv_consume_direct (s : Sys) (pk : PublicKey) (a : Nat)
    (ha : rget s.accounts pk = some a) (hinv : Inv s) :
    Inv ⟨rremove s.accounts pk, s.inflight, s.received, s.fees, s.disbursed + a⟩ := by
  obtain ⟨hc, han, hin, hab⟩ := hinv
  have hsum := registrySum_rremove s.accounts pk han
  rw [ha] at hsum
  simp only [Option.getD_some] at hsum
  refine ⟨?_, keysNodup_rremove _ _ han, hin, ?_⟩
  · show registrySum (rremove s.accounts pk) + registrySum s.inflight +
      (s.disbursed + a) + s.fees = s.received
    omega
  · intro e he
    show rget (rremove s.accounts pk) e.1 = none
    by_cases hep : e.1 = pk
    · rw [hep]; exact rget_rremove_self _ _
    · rw [rget_rremove_ne _ _ _ hep]; exact hab e he

theorem inv_consume_dispatch (s : Sys) (pk : PublicKey) (a : Nat)
    (ha : rget s.accounts pk = some a) (hinv : Inv s) :
    Inv ⟨rremove s.accounts pk, s.inflight ++ [(pk, a)], s.received, s.fees, s.disbursed⟩ := by
  obtain ⟨hc, han, hin, hab⟩ := hinv
  have hsum := registrySum_rremove s.accounts pk han
  rw [ha] at hsum
  simp only [Option.getD_some] at hsum
  have hpk : pk ∉ s.inflight.map Prod.fst := by
    intro hmem
    rcases List.mem_map.mp hmem with ⟨e, he, hfe⟩
    have hn := hab e he
    rw [hfe, ha] at hn
    exact Option.noConfusion hn
  refine ⟨?_, keysNodup_rremove _ _ han, ?_, ?_⟩
  · show registrySum (rremove s.accounts pk) + registrySum (s.inflight ++ [(pk, a)]) +
      s.disbursed + s.fees = s.received
    rw [registrySum_append]
    have hsg : registrySum [(pk, a)] = a := by simp [registrySum]
    omega
  · show keysNodup (s.inflight ++ [(pk, a)])
    rw [keysNodup, List.map_append, List.nodup_append]
    refine ⟨hin, by simp, ?_⟩
    intro x hx hx2
    simp at hx2
    subst hx2
    exact hpk hx
  · intro e he
    show rget (rremove s.accounts pk) e.1 = none
    rcases List.mem_append.mp he with he | he
    · by_cases hep : e.1 = pk
      · rw [hep]; exact rget_rremove_self _ _
      · rw [rget_rremove_ne _ _ _ hep]; exact hab e he
    · simp at he
      subst he
      exact rget_rremove_self _ _

theorem inv_restore (s : Sys) (pk : PublicKey) (a : Nat)
    (hf : rget s.inflight pk = some a) (hinv : Inv s) :
    Inv ⟨rinsert s.accounts pk a, rremove s.inflight pk, s.received, s.fees, s.disbursed⟩ := by
  obtain ⟨hc, han, hin, hab⟩ := hinv
  have habs : rget s.accounts pk = none := hab _ (rget_mem _ _ _ hf)
  have hsum1 := registrySum_rinsert s.accounts pk a han
  rw [habs] at hsum1
  simp only [Option.getD_none] at hsum1
  have hsum2 := registrySum_rremove s.inflight pk hin
  rw [hf] at hsum2
  simp only [Option.getD_some] at hsum2
  refine ⟨?_, keysNodup_rinsert _ _ _ han, keysNodup_rremove _ _ hin, ?_⟩
  · show registrySum (rinsert s.accounts pk a) + registrySum (rremove s.inflight pk) +
      s.disbursed + s.fees = s.received
    omega
  · intro e he
    obtain ⟨hmem, hne⟩ := mem_rremove _ _ _ he
    show rget (rinsert s.accounts pk a) e.1 = none
    rw [rget_rinsert_ne _ _ _ _ hne]
    exact hab e hmem

theorem inv_finalize (s : Sys) (pk : PublicKey) (a : Nat)
    (hf : rget s.inflight pk = some a) (hinv : Inv s) :
    Inv ⟨s.accounts, rremove s.inflight pk, s.received, s.fees, s.disbursed + a⟩ := by
  obtain ⟨hc, han, hin, hab⟩ := hinv
  have hsum2 := registrySum_rremove s.inflight pk hin
  rw [hf] at hsum2
  simp only [Option.getD_some] at hsum2
  refine ⟨?_, han, keysNodup_rremove _ _ hin, ?_⟩
  · show registrySum s.accounts + registrySum (rremove s.inflight pk) +
      (s.disbursed + a) + s.fees = s.received
    omega
  · intro e he
    exact hab e (mem_rremove _ _ _ he).1

theorem inv_stepOp (s : Sys) (op : TraceOp) (hinv : Inv s) (hok : okOp s op = true) :
    Inv (stepOp s op) := by
  cases op with
  | opSend pk d =>
      rcases hs : send (selfEnv pk d []) s.accounts pk with e | ⟨m1, ps⟩
      · simp only [stepOp, hs]; exact hinv
      · obtain ⟨hd, hov, hm1⟩ := send_ok_inv hs
        subst hm1
        simp only [stepOp, hs]
        have hn : (rget s.inflight pk).isNone = true := hok
        exact inv_register s pk d hd (Option.isNone_iff_eq_none.mp hn) hinv
  | opSendLimited pk d names =>
      rcases hs : send_limited (selfEnv pk d []) s.accounts pk names with e | ⟨m1, ps⟩
      · simp only [stepOp, hs]; exact hinv
      · obtain ⟨hd, hov, hm1⟩ := send_limited_ok_inv hs
        subst hm1
        simp only [stepOp, hs]
        have hn : (rget s.inflight pk).isNone = true := hok
        exact inv_register s pk d hd (Option.isNone_iff_eq_none.mp hn) hinv
  | opClaim pk target =>
      rcases hs : claim (selfEnv pk 0 []) s.accounts target with e | ⟨m1, ps⟩
      · simp only [stepOp, hs]; exact hinv
      · obtain ⟨h1, h2, a, ha, hm1, hps⟩ := claim_ok_inv hs
        subst hm1
        have ht : transferTotal ps = a := by
          rw [hps]; simp [transferTotal, actionTransfer]
        simp only [stepOp, hs, ht]
        exact inv_consume_direct s pk a ha hinv
  | opCreateAndClaim pk target npk =>
      rcases hs : create_account_and_claim (selfEnv pk 0 []) s.accounts target npk
        with e | ⟨m1, ps⟩
      · simp only [stepOp, hs]; exact hinv
      · obtain ⟨h1, h2, a, ha, hm1, hps⟩ := create_account_and_claim_ok_inv hs
        subst hm1
        have hde : dispatchedEntries pk ps = [(pk, a)] := by
          rw [hps]; rfl
        simp only [stepOp, hs, hde]
        exact inv_consume_dispatch s pk a ha hinv
  | opCreateContract pk target npk al code names =>
      rcases hs : create_contract_and_claim (selfEnv pk 0 []) s.accounts target npk al code names
        with e | ⟨m1, ps⟩
      · simp only [stepOp, hs]; exact hinv
      · obtain ⟨h1, h2, a, ha, hm1, hps⟩ := create_contract_and_claim_ok_inv hs
        subst hm1
        have hde : dispatchedEntries pk ps = [(pk, a)] := by
          rw [hps]; rfl
        simp only [stepOp, hs, hde]
        exact inv_consume_dispatch s pk a ha hinv
  | opCreateMultisig pk target npk n =>
      rcases hs : create_multisig_and_claim (selfEnv pk 0 []) s.accounts target npk n
        with e | ⟨m1, ps⟩
      · simp only [stepOp, hs]; exact hinv
      · obtain ⟨h1, h2, a, ha, hm1, hps⟩ := create_multisig_and_claim_ok_inv hs
        subst hm1
        have hde : dispatchedEntries pk ps = [(pk, a)] := by
          rw [hps]; rfl
        simp only [stepOp, hs, hde]
        exact inv_consume_dispatch s pk a ha hinv
  | opCallback pk success =>
      rcases hf : rget s.inflight pk with _ | a
      · simp only [stepOp, hf]; exact hinv
      · cases success with
        | false =>
            have he : on_account_created_and_claimed
                (selfEnv pk 0
                  [if (false : Bool) then PromiseResult.successful [] else PromiseResult.failed])
                s.accounts a = .ok (rinsert s.accounts pk a, false, []) :=
              cb_failure_eval s.accounts a pk
            simp only [stepOp, hf, he]
            exact inv_restore s pk a hf hinv
        | true =>
            have he : on_account_created_and_claimed
                (selfEnv pk 0
                  [if (true : Bool) then PromiseResult.successful [] else PromiseResult.failed])
                s.accounts a =
                .ok (s.accounts, true, [⟨"linkdrop", [Action.deleteKey pk], none⟩]) :=
              cb_success_eval s.accounts a pk
            simp only [stepOp, hf, he]
            exact inv_finalize s pk a hf hinv

theorem inv_applyOps (s : Sys) (ops : List TraceOp) (hinv : Inv s)
    (hg : goodTrace s ops = true) : Inv (applyOps s ops) := by
  induction ops generalizing s with
  | nil => exact hinv
  | cons op ops ih =>
      simp only [goodTrace, Bool.and_eq_true] at hg
      exact ih (stepOp s op) (inv_stepOp s op hinv hg.1) hg.2

/-- C1 fails as stated: after the trace cexTrace of register, consume and
restore operations, no pipeline is left in flight, yet the sum of registry
values plus disbursed funds differs from total funds received minus total
allowance fees retained — the deposit registered while the pipeline was in
flight is destroyed by the restoring overwrite. -/
theorem conservation_counterexample :
    (applyOps initSys cexTrace).inflight = [] ∧
    ¬ (registrySum (applyOps initSys cexTrace).accounts +
        (applyOps initSys cexTrace).disbursed =
        (applyOps initSys cexTrace).received - (applyOps initSys cexTrace).fees) := by
  decide

/-- C1 (amended): for every well-interleaved trace of register (send,
send_limited), consume (claim, create_account_and_claim,
create_contract_and_claim, create_multisig_and_claim) and restore (failure
callback) operations starting from the empty contract, funds are conserved:
registry total plus dispatched in-flight amounts plus funds already disbursed
plus allowance fees retained equals total funds received.  Well-interleaved
means no send registers a deposit for a credential whose pipeline is still in
flight; without that proviso the restoring overwrite destroys the intervening
deposit (see the counterexample). -/
theorem conservation_of_good_traces (ops : List TraceOp)
    (h : goodTrace initSys ops = true) : conserved (applyOps initSys ops) :=
  (inv_applyOps initSys ops inv_initSys h).conservation

theorem conservation_of_good_traces_witness :
    goodTrace initSys
      [TraceOp.opSend [0] (2 * ACCESS_KEY_ALLOWANCE),
       TraceOp.opCreateAndClaim [0] "bob" [1],
       TraceOp.opCallback [0] false,
       TraceOp.opClaim [0] "carol"] = true ∧
    conserved (applyOps initSys
      [TraceOp.opSend [0] (2 * ACCESS_KEY_ALLOWANCE),
       TraceOp.opCreateAndClaim [0] "bob" [1],
       TraceOp.opCallback [0] false,
       TraceOp.opClaim [0] "carol"]) :=
  ⟨by decide,
   conservation_of_good_traces
     [TraceOp.opSend [0] (2 * ACCESS_KEY_ALLOWANCE),
      TraceOp.opCreateAndClaim [0] "bob" [1],
      TraceOp.opCallback [0] false,
      TraceOp.opClaim [0] "carol"] (by decide)⟩

theorem absent_stepOp (s : Sys) (op : TraceOp) (pk : PublicKey)
    (ha : rget s.accounts pk = none) (hop : noInsertFor pk op) :
    rget (stepOp s op).accounts pk = none := by
  cases op with
  | opSend q d =>
      rcases hs : send (selfEnv q d []) s.accounts q with e | ⟨m1, ps⟩
      · simp only [stepOp, hs]; exact ha
      · obtain ⟨hd, hov, hm1⟩ := send_ok_inv hs
        subst hm1
        simp only [stepOp, hs]
        have hop2 : q ≠ pk := hop
        show rget (rinsert s.accounts q _) pk = none
        rw [rget_rinsert_ne _ _ _ _ (Ne.symm hop2)]
        exact ha
  | opSendLimited q d names =>
      rcases hs : send_limited (selfEnv q d []) s.accounts q names with e | ⟨m1, ps⟩
      · simp only [stepOp, hs]; exact ha
      · obtain ⟨hd, hov, hm1⟩ := send_limited_ok_inv hs
        subst hm1
        simp only [stepOp, hs]
        have hop2 : q ≠ pk := hop
        show rget (rinsert s.accounts q _) pk = none
        rw [rget_rinsert_ne _ _ _ _ (Ne.symm hop2)]
        exact ha
  | opClaim q target =>
      rcases hs : claim (selfEnv q 0 []) s.accounts target with e | ⟨m1, ps⟩
      · simp only [stepOp, hs]; exact ha
      · obtain ⟨h1, h2, a, haq, hm1, hps⟩ := claim_ok_inv hs
        subst hm1
        simp only [stepOp, hs]
        show rget (rremove s.accounts _) pk = none
        by_cases hqp : pk = (selfEnv q 0 []).signerAccountPk
        · rw [hqp]; exact rget_rremove_self _ _
        · rw [rget_rremove_ne _ _ _ hqp]; exact ha
  | opCreateAndClaim q target npk =>
      rcases hs : create_account_and_claim (selfEnv q 0 []) s.accounts target npk
        with e | ⟨m1, ps⟩
      · simp only [stepOp, hs]; exact ha
      · obtain ⟨h1, h2, a, haq, hm1, hps⟩ := create_account_and_claim_ok_inv hs
        subst hm1
        simp only [stepOp, hs]
        show rget (rremove s.accounts _) pk = none
        by_cases hqp : pk = (selfEnv q 0 []).signerAccountPk
        · rw [hqp]; exact rget_rremove_self _ _
        · rw [rget_rremove_ne _ _ _ hqp]; exact ha
  | opCreateContract q target npk al code names =>
      rcases hs : create_contract_and_claim (selfEnv q 0 []) s.accounts target npk al code names
        with e | ⟨m1, ps⟩
      · simp only [stepOp, hs]; exact ha
      · obtain ⟨h1, h2, a, haq, hm1, hps⟩ := create_contract_and_claim_ok_inv hs
        subst hm1
        simp only [stepOp, hs]
        show rget (rremove s.accounts _) pk = none
        by_cases hqp : pk = (selfEnv q 0 []).signerAccountPk
        · rw [hqp]; exact rget_rremove_self _ _
        · rw [rget_rremove_ne _ _ _ hqp]; exact ha
  | opCreateMultisig q target npk n =>
      rcases hs : create_multisig_and_claim (selfEnv q 0 []) s.accounts target npk n
        with e | ⟨m1, ps⟩
      · simp only [stepOp, hs]; exact ha
      · obtain ⟨h1, h2, a, haq, hm1, hps⟩ := create_multisig_and_claim_ok_inv hs
        subst hm1
        simp only [stepOp, hs]
        show rget (rremove s.accounts _) pk = none
        by_cases hqp : pk = (selfEnv q 0 []).signerAccountPk
        · rw [hqp]; exact rget_rremove_self _ _
        · rw [rget_rremove_ne _ _ _ hqp]; exact ha
  | opCallback q success =>
      rcases hf : rget s.inflight q with _ | a
      · simp only [stepOp, hf]; exact ha
      · cases success with
        | false =>
            have hop2 : q ≠ pk := by
              rcases (hop : q ≠ pk ∨ false = true) with h | h
              · exact h
              · exact absurd h (by simp)
            have he : on_account_created_and_claimed
                (selfEnv q 0
                  [if (false : Bool) then PromiseResult.successful [] else PromiseResult.failed])
                s.accounts a = .ok (rinsert s.accounts q a, false, []) :=
              cb_failure_eval s.accounts a q
            simp only [stepOp, hf, he]
            show rget (rinsert s.accounts q a) pk = none
            rw [rget_rinsert_ne _ _ _ _ (Ne.symm hop2)]
            exact ha
        | true =>
            have he : on_account_created_and_claimed
                (selfEnv q 0
                  [if (true : Bool) then PromiseResult.successful [] else PromiseResult.failed])
                s.accounts a =
                .ok (s.accounts, true, [⟨"linkdrop", [Action.deleteKey q], none⟩]) :=
              cb_success_eval s.accounts a q
            simp only [stepOp, hf, he]
            exact ha

theorem absent_applyOps (s : Sys) (ops : List TraceOp) (pk : PublicKey)
    (ha : rget s.accounts pk = none) (hops : ∀ op ∈ ops, noInsertFor pk op) :
    rget (applyOps s ops).accounts pk = none := by
  induction ops generalizing s with
  | nil => exact ha
  | cons op ops ih =>
      exact ih (stepOp s op)
        (absent_stepOp s op pk ha (hops op (List.mem_cons_self _ _)))
        (fun o ho => hops o (List.mem_cons_of_mem _ ho))

theorem claim_missing (env : Env) (m : Registry) (t : AccountId)
    (h1 : env.predecessorAccountId = env.currentAccountId)
    (h2 : env.isValidAccountId t = true)
    (ha : rget m env.signerAccountPk = none) :
    claim env m t = .error .missingCredential := by
  simp [claim, h1, h2, ha]

theorem create_account_and_claim_missing (env : Env) (m : Registry) (t : AccountId)
    (npk : PublicKey)
    (h1 : env.predecessorAccountId = env.currentAccountId)
    (h2 : env.isValidAccountId t = true)
    (ha : rget m env.signerAccountPk = none) :
    create_account_and_claim env m t npk = .error .missingCredential := by
  simp [create_account_and_claim, h1, h2, ha]

theorem create_contract_and_claim_missing (env : Env) (m : Registry) (t : AccountId)
    (npk : PublicKey) (al : Nat) (code : List Nat) (names : String)
    (h1 : env.predecessorAccountId = env.currentAccountId)
    (h2 : env.isValidAccountId t = true)
    (ha : rget m env.signerAccountPk = none) :
    create_contract_and_claim env m t npk al code names = .error .missingCredential := by
  simp [create_contract_and_claim, h1, h2, ha]

theorem create_multisig_and_claim_missing (env : Env) (m : Registry) (t : AccountId)
    (npk : PublicKey) (n : Nat)
    (h1 : env.predecessorAccountId = env.currentAccountId)
    (h2 : env.isValidAccountId t = true)
    (ha : rget m env.signerAccountPk = none) :
    create_multisig_and_claim env m t npk n = .error .missingCredential := by
  simp [create_multisig_and_claim, h1, h2, ha]

/-- C2: after a successful claim consumes the pending deposit of credential pk,
every later redemption attempt for pk — claim or any of the three
create-and-claim variants — fails with missingCredential, provided no
intervening operation re-registers (send or send_limited for pk) or restores
(failure callback for pk) a deposit for that credential. -/
theorem redeem_exactly_once (m0 : Registry) (pk : PublicKey) (t0 : AccountId)
    (m1 : Registry) (ps0 : List PromiseSpec)
    (hconsume : claim (selfEnv pk 0 []) m0 t0 = .ok (m1, ps0))
    (infl : Registry) (rec fe di : Nat) (ops : List TraceOp)
    (hops : ∀ op ∈ ops, noInsertFor pk op)
    (t1 : AccountId) (npk : PublicKey) (al : Nat) (code : List Nat)
    (names : String) (n : Nat) :
    claim (selfEnv pk 0 []) (applyOps ⟨m1, infl, rec, fe, di⟩ ops).accounts t1 =
      .error .missingCredential ∧
    create_account_and_claim (selfEnv pk 0 [])
      (applyOps ⟨m1, infl, rec, fe, di⟩ ops).accounts t1 npk =
      .error .missingCredential ∧
    create_contract_and_claim (selfEnv pk 0 [])
      (applyOps ⟨m1, infl, rec, fe, di⟩ ops).accounts t1 npk al code names =
      .error .missingCredential ∧
    create_multisig_and_claim (selfEnv pk 0 [])
      (applyOps ⟨m1, infl, rec, fe, di⟩ ops).accounts t1 npk n =
      .error .missingCredential := by
  obtain ⟨h1, h2, a, ha, hm1, hps⟩ := claim_ok_inv hconsume
  have ha1 : rget m1 pk = none := by
    rw [hm1]
    exact rget_rremove_self _ _
  have ha2 : rget (applyOps ⟨m1, infl, rec, fe, di⟩ ops).accounts pk = none :=
    absent_applyOps _ ops pk ha1 hops
  exact ⟨claim_missing _ _ _ rfl rfl ha2,
    create_account_and_claim_missing _ _ _ _ rfl rfl ha2,
    create_contract_and_claim_missing _ _ _ _ _ _ _ rfl rfl ha2,
    create_multisig_and_claim_missing _ _ _ _ _ rfl rfl ha2⟩

theorem redeem_exactly_once_witness :
    claim (selfEnv [0] 0 [])
      (applyOps ⟨[], [([0], 9)], 0, 0, 0⟩
        [TraceOp.opCallback [0] true,
         TraceOp.opSend [1] (2 * ACCESS_KEY_ALLOWANCE)]).accounts "alice" =
      .error .missingCredential ∧
    create_account_and_claim (selfEnv [0] 0 [])
      (applyOps ⟨[], [([0], 9)], 0, 0, 0⟩
        [TraceOp.opCallback [0] true,
         TraceOp.opSend [1] (2 * ACCESS_KEY_ALLOWANCE)]).accounts "alice" [2] =
      .error .missingCredential ∧
    create_contract_and_claim (selfEnv [0] 0 [])
      (applyOps ⟨[], [([0], 9)], 0, 0, 0⟩
        [TraceOp.opCallback [0] true,
         TraceOp.opSend [1] (2 * ACCESS_KEY_ALLOWANCE)]).accounts "alice" [2] 7 [1] "m" =
      .error .missingCredential ∧
    create_multisig_and_claim (selfEnv [0] 0 [])
      (applyOps ⟨[], [([0], 9)], 0, 0, 0⟩
        [TraceOp.opCallback [0] true,
         TraceOp.opSend [1] (2 * ACCESS_KEY_ALLOWANCE)]).accounts "alice" [2] 2 =
      .error .missingCredential :=
  redeem_exactly_once [([0], 5)] [0] "bob" []
    [⟨"linkdrop", [Action.deleteKey [0]], none⟩, ⟨"bob", [Action.transfer 5], none⟩]
    (by decide) [([0], 9)] 0 0 0
    [TraceOp.opCallback [0] true, TraceOp.opSend [1] (2 * ACCESS_KEY_ALLOWANCE)]
    (by decide) "alice" [2] 7 [1] "m" 2

/-- C3: when create_account_and_claim succeeds after consuming the pending
deposit a of the signer credential, the dispatched pipeline registers a
completion callback carrying exactly a, and running that callback on a failure
signal re-inserts exactly a under the credential — no allowance fee is
deducted again at restoration. -/
theorem rollback_restores_exact_amount (m : Registry) (pk : PublicKey)
    (target : AccountId) (npk : PublicKey) (a : Nat) (m1 : Registry)
    (ps : List PromiseSpec)
    (hget : rget m pk = some a)
    (hcall : create_account_and_claim (selfEnv pk 0 []) m target npk = .ok (m1, ps)) :
    ps = [⟨target,
      [Action.createAccount, Action.addFullAccessKey npk, Action.transfer a],
      some (Callback.onAccountCreatedAndClaimed a)⟩] ∧
    on_account_created_and_claimed (selfEnv pk 0 [PromiseResult.failed]) m1 a =
      .ok (rinsert m1 pk a, false, []) ∧
    rget (rinsert m1 pk a) pk = some a := by
  obtain ⟨h1, h2, b, hb, hm1, hps⟩ := create_account_and_claim_ok_inv hcall
  have hba : b = a := by
    have hget2 : rget m pk = some b := hb
    rw [hget] at hget2
    exact (Option.some.inj hget2).symm
  rw [hba] at hps
  exact ⟨hps, cb_failure_eval m1 a pk, rget_rinsert_self _ _ _⟩

theorem rollback_restores_exact_amount_witness :
    [⟨"bob", [Action.createAccount, Action.addFullAccessKey [1], Action.transfer 7],
      some (Callback.onAccountCreatedAndClaimed 7)⟩] =
      ([⟨"bob", [Action.createAccount, Action.addFullAccessKey [1], Action.transfer 7],
        some (Callback.onAccountCreatedAndClaimed 7)⟩] : List PromiseSpec) ∧
    on_account_created_and_claimed (selfEnv [0] 0 [PromiseResult.failed]) [] 7 =
      .ok (rinsert [] [0] 7, false, []) ∧
    rget (rinsert [] [0] 7) [0] = some 7 :=
  ⟨rfl,
   (rollback_restores_exact_amount [([0], 7)] [0] "bob" [1] 7 []
     [⟨"bob", [Action.createAccount, Action.addFullAccessKey [1], Action.transfer 7],
       some (Callback.onAccountCreatedAndClaimed 7)⟩]
     (by decide) (by decide)).2⟩

/-- C4: when the external account-name validator rejects the target name,
create_account_and_claim invoked through the authorized self-call path fails
with invalidAccountId and the registry is unchanged by the aborted call. -/
theorem invalid_account_rejected (env : Env) (m : Registry) (t : AccountId)
    (npk : PublicKey)
    (hauth : env.predecessorAccountId = env.currentAccountId)
    (hinvalid : env.isValidAccountId t = false) :
    create_account_and_claim env m t npk = .error .invalidAccountId ∧
    regAfter (create_account_and_claim env m t npk) m = m := by
  have h : create_account_and_claim env m t npk = .error .invalidAccountId := by
    simp [create_account_and_claim, hauth, hinvalid]
  exact ⟨h, by rw [h]; rfl⟩

theorem invalid_account_rejected_witness :
    create_account_and_claim ⟨"linkdrop", "linkdrop", [0], 0, fun _ => false, []⟩
      [([0], 5)] "XYZ" [1] = .error .invalidAccountId ∧
    regAfter (create_account_and_claim ⟨"linkdrop", "linkdrop", [0], 0, fun _ => false, []⟩
      [([0], 5)] "XYZ" [1]) [([0], 5)] = [([0], 5)] :=
  invalid_account_rejected ⟨"linkdrop", "linkdrop", [0], 0, fun _ => false, []⟩
    [([0], 5)] "XYZ" [1] rfl rfl

/-- C5 fails as stated: at a concrete input, both code-deploying variants
attach the scoped access key last — after the transfer, the deployment and
(for the multisig variant) the initializer call — not right after account
creation as claimed. -/
theorem pipeline_order_counterexample :
    pipelineKinds (create_contract_and_claim (selfEnv [0] 0 []) [([0], 7)] "bob" [1] 5 [9] "m") =
      some [ActionKind.createK, ActionKind.transferK, ActionKind.deployK, ActionKind.accessK] ∧
    [ActionKind.createK, ActionKind.transferK, ActionKind.deployK, ActionKind.accessK] ≠
      [ActionKind.createK, ActionKind.accessK, ActionKind.transferK, ActionKind.deployK] ∧
    pipelineKinds (create_multisig_and_claim (selfEnv [0] 0 []) [([0], 7)] "bob" [1] 2) =
      some [ActionKind.createK, ActionKind.transferK, ActionKind.deployK, ActionKind.callK,
        ActionKind.accessK] ∧
    [ActionKind.createK, ActionKind.transferK, ActionKind.deployK, ActionKind.callK,
      ActionKind.accessK] ≠
      [ActionKind.createK, ActionKind.accessK, ActionKind.transferK, ActionKind.deployK,
        ActionKind.callK] := by
  decide

/-- C5 (amended): for every successful call of the code-deploying redemption
variants, the dispatched pipeline performs its steps in the order: create the
target account, then transfer the claimed amount, then deploy the code, then
(for the multisig variant) invoke the initializer, and finally attach the
scoped access capability. -/
theorem pipeline_order_actual (env : Env) (m : Registry) (t : AccountId)
    (npk : PublicKey) (al : Nat) (code : List Nat) (names : String) (n : Nat)
    (m1 m2 : Registry) (ps1 ps2 : List PromiseSpec)
    (hc : create_contract_and_claim env m t npk al code names = .ok (m1, ps1))
    (hm : create_multisig_and_claim env m t npk n = .ok (m2, ps2)) :
    ps1.map (fun p => p.actions.map actionKind) =
      [[ActionKind.createK, ActionKind.transferK, ActionKind.deployK, ActionKind.accessK]] ∧
    ps2.map (fun p => p.actions.map actionKind) =
      [[ActionKind.createK, ActionKind.transferK, ActionKind.deployK, ActionKind.callK,
        ActionKind.accessK]] := by
  obtain ⟨hp1, hv1, a, ha, hm1, hps1⟩ := create_contract_and_claim_ok_inv hc
  obtain ⟨hp2, hv2, b, hb, hm2, hps2⟩ := create_multisig_and_claim_ok_inv hm
  rw [hps1, hps2]
  exact ⟨rfl, rfl⟩

theorem pipeline_order_actual_witness :
    ([⟨"bob",
      [Action.createAccount, Action.transfer 7, Action.deployContract [9],
        Action.addAccessKey [1] 5 "bob" "m"],
      some (Callback.onAccountCreatedAndClaimed 7)⟩] : List PromiseSpec).map
        (fun p => p.actions.map actionKind) =
      [[ActionKind.createK, ActionKind.transferK, ActionKind.deployK, ActionKind.accessK]] ∧
    ([⟨"bob",
      [Action.createAccount, Action.transfer 7, Action.deployContract multisigWasm,
        Action.functionCall "new" 2 NO_DEPOSIT ON_CREATE_ACCOUNT_CALLBACK_GAS,
        Action.addAccessKey [1] MAX_ALLOWANCE "bob" multisigMethodNames],
      some (Callback.onAccountCreatedAndClaimed 7)⟩] : List PromiseSpec).map
        (fun p => p.actions.map actionKind) =
      [[ActionKind.createK, ActionKind.transferK, ActionKind.deployK, ActionKind.callK,
        ActionKind.accessK]] :=
  pipeline_order_actual (selfEnv [0] 0 []) [([0], 7)] "bob" [1] 5 [9] "m" 2 [] []
    [⟨"bob",
      [Action.createAccount, Action.transfer 7, Action.deployContract [9],
        Action.addAccessKey [1] 5 "bob" "m"],
      some (Callback.onAccountCreatedAndClaimed 7)⟩]
    [⟨"bob",
      [Action.createAccount, Action.transfer 7, Action.deployContract multisigWasm,
        Action.functionCall "new" 2 NO_DEPOSIT ON_CREATE_ACCOUNT_CALLBACK_GAS,
        Action.addAccessKey [1] MAX_ALLOWANCE "bob" multisigMethodNames],
      some (Callback.onAccountCreatedAndClaimed 7)⟩]
    (by decide) (by decide)

theorem send_ok_eval (env : Env) (m : Registry) (pk : PublicKey)
    (h1 : ACCESS_KEY_ALLOWANCE < env.attachedDeposit)
    (h2 : (rget m pk).getD 0 + env.attachedDeposit < U128_MOD) :
    send env m pk =
      .ok (rinsert m pk ((rget m pk).getD 0 + env.attachedDeposit - ACCESS_KEY_ALLOWANCE),
        [⟨env.currentAccountId,
          [Action.addAccessKey pk ACCESS_KEY_ALLOWANCE env.currentAccountId sendMethodNames],
          none⟩]) := by
  simp only [send]
  split_ifs with hA hB
  · exact absurd hA (by omega)
  · exact absurd hB (by omega)
  · rfl

theorem send_limited_ok_eval (env : Env) (m : Registry) (pk : PublicKey) (names : String)
    (h1 : ACCESS_KEY_ALLOWANCE < env.attachedDeposit)
    (h2 : (rget m pk).getD 0 + env.attachedDeposit < U128_MOD) :
    send_limited env m pk names =
      .ok (rinsert m pk ((rget m pk).getD 0 + env.attachedDeposit - ACCESS_KEY_ALLOWANCE),
        [⟨env.currentAccountId,
          [Action.addAccessKey pk ACCESS_KEY_ALLOWANCE env.currentAccountId names],
          none⟩]) := by
  simp only [send_limited]
  split_ifs with hA hB
  · exact absurd hA (by omega)
  · exact absurd hB (by omega)
  · rfl

/-- C6 fails at the u128 boundary: with d1 = d2 = 2^128 - 1, both strictly
greater than the allowance fee, the accumulation of the second send overflows
the u128 amount type, the call aborts, and the pending deposit stays d1 - fee
instead of (d1 - fee) + (d2 - fee). -/
theorem accumulation_overflow_counterexample :
    send (selfEnv [0] (U128_MOD - 1) []) [] [0] =
      .ok ([([0], U128_MOD - 1 - ACCESS_KEY_ALLOWANCE)],
        [⟨"linkdrop",
          [Action.addAccessKey [0] ACCESS_KEY_ALLOWANCE "linkdrop" sendMethodNames],
          none⟩]) ∧
    send (selfEnv [0] (U128_MOD - 1) []) [([0], U128_MOD - 1 - ACCESS_KEY_ALLOWANCE)] [0] =
      .error .arithmeticOverflow ∧
    ACCESS_KEY_ALLOWANCE < U128_MOD - 1 ∧
    U128_MOD - 1 - ACCESS_KEY_ALLOWANCE ≠
      (U128_MOD - 1 - ACCESS_KEY_ALLOWANCE) + (U128_MOD - 1 - ACCESS_KEY_ALLOWANCE) := by
  decide

theorem send_ok_nil (pk : PublicKey) (d : Nat)
    (h1 : ACCESS_KEY_ALLOWANCE < d) (hd : d < U128_MOD) :
    send (selfEnv pk d []) [] pk =
      .ok ([(pk, d - ACCESS_KEY_ALLOWANCE)],
        [⟨"linkdrop",
          [Action.addAccessKey pk ACCESS_KEY_ALLOWANCE "linkdrop" sendMethodNames],
          none⟩]) := by
  simp only [send, selfEnv]
  split_ifs with hA hB
  · exact absurd hA (by omega)
  · exfalso
    rw [show rget ([] : Registry) pk = none from rfl, Option.getD_none] at hB
    omega
  · rw [show rget ([] : Registry) pk = none from rfl]
    simp only [Option.getD_none, Nat.zero_add, rinsert]
    rw [rremove_nil]

theorem send_ok_cons (pk : PublicKey) (v d : Nat)
    (h2 : ACCESS_KEY_ALLOWANCE < d) (hov : v + d < U128_MOD) :
    send (selfEnv pk d []) [(pk, v)] pk =
      .ok ([(pk, v + (d - ACCESS_KEY_ALLOWANCE))],
        [⟨"linkdrop",
          [Action.addAccessKey pk ACCESS_KEY_ALLOWANCE "linkdrop" sendMethodNames],
          none⟩]) := by
  have harith : v + d - ACCESS_KEY_ALLOWANCE = v + (d - ACCESS_KEY_ALLOWANCE) := by omega
  simp only [send, selfEnv]
  split_ifs with hA hB
  · exact absurd hA (by omega)
  · exfalso
    rw [rget_cons_self [] pk v, Option.getD_some] at hB
    omega
  · rw [rget_cons_self [] pk v]
    simp only [Option.getD_some, rinsert]
    rw [rremove_cons_self, rremove_nil, harith]

/-- C6 (amended): two successive sends for the same credential with deposits
d1 and d2, each strictly greater than the allowance fee, leave a pending
deposit of (d1 - fee) + (d2 - fee), provided the deposits are u128 values and
the accumulation (d1 - fee) + d2 stays below 2^128; at the overflow boundary
the second call aborts with arithmeticOverflow instead (see the
counterexample). -/
theorem send_accumulates (pk : PublicKey) (d1 d2 : Nat)
    (h1 : ACCESS_KEY_ALLOWANCE < d1) (h2 : ACCESS_KEY_ALLOWANCE < d2)
    (hd1 : d1 < U128_MOD)
    (hov : (d1 - ACCESS_KEY_ALLOWANCE) + d2 < U128_MOD) :
    ∃ ps1 ps2 m2,
      send (selfEnv pk d1 []) [] pk = .ok ([(pk, d1 - ACCESS_KEY_ALLOWANCE)], ps1) ∧
      send (selfEnv pk d2 []) [(pk, d1 - ACCESS_KEY_ALLOWANCE)] pk = .ok (m2, ps2) ∧
      rget m2 pk = some ((d1 - ACCESS_KEY_ALLOWANCE) + (d2 - ACCESS_KEY_ALLOWANCE)) :=
  ⟨_, _, _, send_ok_nil pk d1 h1 hd1,
   send_ok_cons pk (d1 - ACCESS_KEY_ALLOWANCE) d2 h2 hov,
   rget_cons_self [] pk _⟩

theorem send_accumulates_witness :
    (∃ ps1 ps2 m2,
      send (selfEnv [0] (100 * ACCESS_KEY_ALLOWANCE) []) [] [0] =
        .ok ([([0], 100 * ACCESS_KEY_ALLOWANCE - ACCESS_KEY_ALLOWANCE)], ps1) ∧
      send (selfEnv [0] (ACCESS_KEY_ALLOWANCE + 1) [])
        [([0], 100 * ACCESS_KEY_ALLOWANCE - ACCESS_KEY_ALLOWANCE)] [0] = .ok (m2, ps2) ∧
      rget m2 [0] = some ((100 * ACCESS_KEY_ALLOWANCE - ACCESS_KEY_ALLOWANCE) +
        (ACCESS_KEY_ALLOWANCE + 1 - ACCESS_KEY_ALLOWANCE))) ∧
    (100 * ACCESS_KEY_ALLOWANCE - ACCESS_KEY_ALLOWANCE) +
      (ACCESS_KEY_ALLOWANCE + 1 - ACCESS_KEY_ALLOWANCE) = 99 * ACCESS_KEY_ALLOWANCE + 1 :=
  ⟨send_accumulates [0] (100 * ACCESS_KEY_ALLOWANCE) (ACCESS_KEY_ALLOWANCE + 1)
    (by decide) (by decide) (by decide) (by decide), by decide⟩

/-- C7: a claim invoked by any caller other than the contract itself fails
with authorizationError and leaves the registry unchanged. -/
theorem claim_requires_self_call (env : Env) (m : Registry) (t : AccountId)
    (h : env.predecessorAccountId ≠ env.currentAccountId) :
    claim env m t = .error .authorizationError ∧
    regAfter (claim env m t) m = m := by
  have hc : claim env m t = .error .authorizationError := by
    simp [claim, h]
  exact ⟨hc, by rw [hc]; rfl⟩

theorem claim_requires_self_call_witness :
    claim ⟨"linkdrop", "bob", [0], 0, fun _ => true, []⟩ [([0], 5)] "carol" =
      .error .authorizationError ∧
    regAfter (claim ⟨"linkdrop", "bob", [0], 0, fun _ => true, []⟩ [([0], 5)] "carol")
      [([0], 5)] = [([0], 5)] :=
  claim_requires_self_call ⟨"linkdrop", "bob", [0], 0, fun _ => true, []⟩ [([0], 5)] "carol"
    (by decide)

/-- C8: both completion callbacks assert that exactly one promise result was
delivered: with zero or more than one result the assertion fires and the call
aborts, and with exactly one result is_promise_success reports success if and
only if that result is successful, which is the boolean the callback acts on. -/
theorem callback_asserts_single_result (rs : List PromiseResult) (pk : PublicKey)
    (m : Registry) (a : Nat) (pid : AccountId) :
    (rs.length ≠ 1 →
      is_promise_success rs = none ∧
      on_account_created (selfEnv pk 0 rs) pid a = .error .resultCountViolation ∧
      on_account_created_and_claimed (selfEnv pk 0 rs) m a = .error .resultCountViolation) ∧
    (∀ r, rs = [r] →
      is_promise_success rs = some (isSuccessfulResult r) ∧
      on_account_created_and_claimed (selfEnv pk 0 rs) m a =
        .ok (if isSuccessfulResult r then m else rinsert m pk a, isSuccessfulResult r,
          if isSuccessfulResult r then [⟨"linkdrop", [Action.deleteKey pk], none⟩] else [])) := by
  constructor
  · intro h
    have hip : is_promise_success rs = none := by
      match rs with
      | [] => rfl
      | [r] => exact absurd rfl h
      | r1 :: r2 :: rest => cases r1 <;> rfl
    refine ⟨hip, ?_, ?_⟩
    · simp [on_account_created, selfEnv, hip]
    · simp [on_account_created_and_claimed, selfEnv, hip]
  · intro r hr
    subst hr
    cases r with
    | successful data =>
        exact ⟨rfl, by
          simp [on_account_created_and_claimed, selfEnv, is_promise_success,
            isSuccessfulResult]⟩
    | failed =>
        exact ⟨rfl, by
          simp [on_account_created_and_claimed, selfEnv, is_promise_success,
            isSuccessfulResult]⟩
    | notReady =>
        exact ⟨rfl, by
          simp [on_account_created_and_claimed, selfEnv, is_promise_success,
            isSuccessfulResult]⟩

theorem callback_asserts_single_result_witness :
    is_promise_success [] = none ∧
    on_account_created (selfEnv [0] 0 []) "bob" 5 = .error .resultCountViolation ∧
    on_account_created_and_claimed (selfEnv [0] 0 []) [([1], 3)] 5 =
      .error .resultCountViolation :=
  (callback_asserts_single_result [] [0] [([1], 3)] 5 "bob").1 (by decide)

/-- C9: send_limited has the same precondition and produces the same registry
as send on every input — their registry components agree, with the fixed
method list they are literally the same function, and on success the two
results differ only in the method-name list of the granted access key. -/
theorem send_limited_matches_send (env : Env) (m : Registry) (pk : PublicKey)
    (names : String) :
    regResult (send_limited env m pk names) = regResult (send env m pk) ∧
    send_limited env m pk sendMethodNames = send env m pk ∧
    (∀ m1 ps1, send env m pk = .ok (m1, ps1) →
      send_limited env m pk names =
        .ok (m1, [⟨env.currentAccountId,
          [Action.addAccessKey pk ACCESS_KEY_ALLOWANCE env.currentAccountId names], none⟩]) ∧
      ps1 = [⟨env.currentAccountId,
        [Action.addAccessKey pk ACCESS_KEY_ALLOWANCE env.currentAccountId sendMethodNames],
        none⟩]) := by
  refine ⟨?_, ?_, ?_⟩
  · simp only [send, send_limited, regResult]
    split_ifs <;> rfl
  · rfl
  · intro m1 ps1 h
    obtain ⟨hd, hov, _⟩ := send_ok_inv h
    have he := send_ok_eval env m pk hd hov
    rw [he] at h
    injection h with h3
    simp only [Prod.mk.injEq] at h3
    obtain ⟨hm1, hps1⟩ := h3
    subst hm1
    exact ⟨send_limited_ok_eval env m pk names hd hov, hps1.symm⟩

theorem send_limited_matches_send_witness :
    regResult (send_limited (selfEnv [0] (2 * ACCESS_KEY_ALLOWANCE) []) [] [0] "m") =
      regResult (send (selfEnv [0] (2 * ACCESS_KEY_ALLOWANCE) []) [] [0]) ∧
    send_limited (selfEnv [0] (2 * ACCESS_KEY_ALLOWANCE) []) [] [0] sendMethodNames =
      send (selfEnv [0] (2 * ACCESS_KEY_ALLOWANCE) []) [] [0] ∧
    send_limited (selfEnv [0] (2 * ACCESS_KEY_ALLOWANCE) []) [] [0] "m" =
      .ok ([([0], ACCESS_KEY_ALLOWANCE)],
        [⟨"linkdrop", [Action.addAccessKey [0] ACCESS_KEY_ALLOWANCE "linkdrop" "m"], none⟩]) :=
  ⟨(send_limited_matches_send (selfEnv [0] (2 * ACCESS_KEY_ALLOWANCE) []) [] [0] "m").1,
   (send_limited_matches_send (selfEnv [0] (2 * ACCESS_KEY_ALLOWANCE) []) [] [0] "m").2.1,
   ((send_limited_matches_send (selfEnv [0] (2 * ACCESS_KEY_ALLOWANCE) []) [] [0] "m").2.2
     [([0], ACCESS_KEY_ALLOWANCE)]
     [⟨"linkdrop", [Action.addAccessKey [0] ACCESS_KEY_ALLOWANCE "linkdrop" sendMethodNames],
       none⟩]
     (by decide)).1⟩

/-- C10: when the failure branch of on_account_created_and_claimed runs while
the registry already holds a pending deposit v for the signer credential, the
stored value afterwards is exactly the dispatched amount: the restoring insert
overwrites the existing entry instead of adding to it, discarding the
intervening deposit. -/
theorem restore_overwrites_existing_entry (m : Registry) (pk : PublicKey)
    (a v : Nat) (_h : rget m pk = some v) :
    on_account_created_and_claimed (selfEnv pk 0 [PromiseResult.failed]) m a =
      .ok (rinsert m pk a, false, []) ∧
    rget (rinsert m pk a) pk = some a ∧
    (0 < v → rget (rinsert m pk a) pk ≠ some (a + v)) := by
  refine ⟨cb_failure_eval m a pk, rget_rinsert_self _ _ _, fun hv hc => ?_⟩
  rw [rget_rinsert_self] at hc
  have := Option.some.inj hc
  omega

theorem restore_overwrites_existing_entry_witness :
    on_account_created_and_claimed (selfEnv [0] 0 [PromiseResult.failed]) [([0], 5)] 7 =
      .ok (rinsert [([0], 5)] [0] 7, false, []) ∧
    rget (rinsert [([0], 5)] [0] 7) [0] = some 7 ∧
    rget (rinsert [([0], 5)] [0] 7) [0] ≠ some (7 + 5) :=
  ⟨(restore_overwrites_existing_entry [([0], 5)] [0] 7 5 (by decide)).1,
   (restore_overwrites_existing_entry [([0], 5)] [0] 7 5 (by decide)).2.1,
   (restore_overwrites_existing_entry [([0], 5)] [0] 7 5 (by decide)).2.2 (by decide)⟩

end LinkDrop
